import Mathlib

/-!
Verification of the lead-scout summary generator
(`lead_scout_summary_generator_app.py`).

The development shallowly embeds the activity-gap classification and
time-accounting pipeline of `process_data` (lines 52-206 of the source):
timestamps are epoch seconds (`Int`), pandas string cleaning is modelled
character-by-character (`Char.toLower`, whitespace stripping), the
two-column `sort_values` call is modelled by a stable insertion sort on
the lexicographic key (pandas uses `np.lexsort`, which is stable, for
multi-column sorts), and the module-level `gap_notes` dictionary (line 12,
re-initialized at the start of every script run) is threaded explicitly.
External collaborators (the sunrise-sunset HTTP service) are parameters.
-/

namespace LeadScout

/-! ## String primitives: pandas `.str.strip()`, `.str.lower()`, `in` -/

/-- Model of pandas `.str.lower()`: lowercase every character. -/
def pyLower (s : String) : String := ⟨s.data.map Char.toLower⟩

/-- Drop leading whitespace characters. -/
def trimLeft (l : List Char) : List Char := l.dropWhile Char.isWhitespace

/-- Drop trailing whitespace characters. -/
def trimRight (l : List Char) : List Char :=
  (l.reverse.dropWhile Char.isWhitespace).reverse

/-- Model of pandas `.str.strip()`: drop leading and trailing whitespace. -/
def pyStrip (s : String) : String := ⟨trimRight (trimLeft s.data)⟩

/-- Model of Python's substring test `needle in hay`: the needle's
characters occur contiguously inside the haystack's. -/
def strContains (hay needle : String) : Bool := decide (needle.data <:+: hay.data)

/-! ## Data model -/

/-- One raw CSV row (the columns `process_data` reads).  `ts` is the parsed
"Lead Status Updated At" timestamp in epoch seconds; `none` models a value
`pd.to_datetime(..., errors="coerce")` failed to parse (line 54). -/
structure RawEvent where
  rep : String
  ts : Option Int
  status : String
  tags : String
  address : String
  deriving Repr, DecidableEq

/-- A row that survived the `notnull` filter of line 55. -/
structure Event where
  rep : String
  ts : Int
  status : String
  tags : String
  address : String
  deriving Repr, DecidableEq

/-- Re-inject a parsed event as a raw row (used to state that reprocessing
an already-normalized table is a no-op). -/
def eventToRaw (e : Event) : RawEvent :=
  ⟨e.rep, some e.ts, e.status, e.tags, e.address⟩

/-! ## Event Normalizer (`process_data` lines 54-61) -/

/-- Lines 54-55: parse timestamps and silently drop rows that fail. -/
def parseRows (t : List RawEvent) : List Event :=
  t.filterMap (fun r => r.ts.map (fun v => ⟨r.rep, v, r.status, r.tags, r.address⟩))

/-- Lines 56-57: `Tags` is stripped then lowercased, `Lead Status` is
stripped in place (its lowercase variant is derived on demand below). -/
def cleanEvent (e : Event) : Event :=
  { e with tags := pyLower (pyStrip e.tags), status := pyStrip e.status }

/-- The cleaned, still unsorted table. -/
def prepRows (t : List RawEvent) : List Event := (parseRows t).map cleanEvent

/-- Strict lexicographic comparison of character lists (the order pandas
uses on the string column of the sort key). -/
def chListLt : List Char → List Char → Bool
  | [], [] => false
  | [], _ :: _ => true
  | _ :: _, [] => false
  | a :: as, b :: bs => if a < b then true else if b < a then false else chListLt as bs

/-- Strict lexicographic order on the rep-identifier strings. -/
def strLt (a b : String) : Prop := chListLt a.data b.data = true

instance : DecidableRel strLt := fun a b =>
  inferInstanceAs (Decidable (chListLt a.data b.data = true))

/-- Sort key of line 61: `(Lead Status Updated By, Lead Status Updated At)`
ascending, lexicographically. -/
def eventLe (a b : Event) : Prop :=
  strLt a.rep b.rep ∨ (a.rep = b.rep ∧ a.ts ≤ b.ts)

instance : DecidableRel eventLe := fun a b =>
  inferInstanceAs (Decidable (strLt a.rep b.rep ∨ (a.rep = b.rep ∧ a.ts ≤ b.ts)))

/-- Line 61: `df.sort_values(by=["Lead Status Updated By", "Lead Status
Updated At"])`.  pandas sorts multi-column keys with `np.lexsort`, which is
stable; insertion sort on the non-strict lexicographic key is stable. -/
def sortEvents (l : List Event) : List Event := List.insertionSort eventLe l

/-- The full Event Normalizer: parse, drop unparseable rows, clean strings,
sort by `(rep, timestamp)` (lines 54-61). -/
def normalizeTable (t : List RawEvent) : List Event := sortEvents (prepRows t)

/-! ## Per-event classification (lines 58, 64-72, 80, 104-107) -/

/-- Line 58: `Lead Status Lower`. -/
def statusLower (e : Event) : String := pyLower e.status

/-- Lines 64-72: the conversation classification. -/
def isConversation (e : Event) : Bool :=
  (statusLower e = "interested - follow up"
    || statusLower e = "inspection scheduled"
    || statusLower e = "not interested - yet")
  || (statusLower e = "do not knock"
      && !(strContains e.tags "yard sign")
      && !(strContains e.tags "custom no soliciting sign"))

/-- Line 80: `Lead Status` contains "Inspected", case-insensitively. -/
def isInspection (e : Event) : Bool :=
  strContains (pyLower e.status) (pyLower "Inspected")

/-- Line 60: the calendar day of the timestamp (epoch day index). -/
def dateOf (e : Event) : Int := e.ts.fdiv 86400

/-! ## Gap computation and classification (lines 27-50, 75-102) -/

/-- Lines 75-78 and 99, via `groupby("Lead Status Updated By").shift(1)`:
annotate every event with the previous event of the same rep (in the
current row order), `none` for a rep's first row.  `seen` is the running
"last row seen per rep" state, most recent first. -/
def annotatePrev : List Event → List (String × Event) → List (Event × Option Event)
  | [], _ => []
  | e :: rest, seen => (e, List.lookup e.rep seen) :: annotatePrev rest ((e.rep, e) :: seen)

/-- The `Time Since Last Pin (s)` column (lines 76-78). -/
def gapS (p : Event × Option Event) : Option Int :=
  p.2.map (fun prev => p.1.ts - prev.ts)

/-- Lines 44-46 of `classify_gap_and_note`: Python renders the removed
duration as `f"{hrs}h {mins}m" if hrs else f"{mins}m"` — the hour part is
omitted when `int(gap // 3600)` is zero. -/
def fmtGapDuration (gap : Int) : String :=
  let hrs := gap.fdiv 3600
  let mins := (gap.emod 3600).fdiv 60
  if hrs ≠ 0 then toString hrs ++ "h " ++ toString mins ++ "m"
  else toString mins ++ "m"

/-- Line 47: the note text. -/
def mkRemovalNote (gap : Int) (firstAddr secondAddr reason : String) : String :=
  "Removed " ++ fmtGapDuration gap ++ " gap between \x27" ++ firstAddr
    ++ "\x27 and \x27" ++ secondAddr ++ "\x27 (" ++ reason ++ ")"

/-- Lines 27-50, `classify_gap_and_note`: returns the `Long Gaps (s)` value
for the row together with the note appended to `gap_notes` (keyed by
`(rep, date)` of the *current* event), if any.  Rule 2 (`gap > 7200`) is
checked before rule 1 (`gap > 1800 and not inspection`); a row with no
defined gap contributes 0. -/
def classifyGapAndNote (p : Event × Option Event) : Int × Option ((String × Int) × String) :=
  match p.2 with
  | none => (0, none)
  | some prev =>
    let gap := p.1.ts - prev.ts
    if 7200 < gap then
      (gap, some ((p.1.rep, dateOf p.1),
        mkRemovalNote gap prev.address p.1.address "Rule 2: >120 min"))
    else if 1800 < gap ∧ isInspection p.1 = false then
      (gap, some ((p.1.rep, dateOf p.1),
        mkRemovalNote gap prev.address p.1.address "Rule 1: >30 min, not inspection"))
    else (0, none)

/-- The `Long Gaps (s)` column (line 100). -/
def longGapS (p : Event × Option Event) : Int := (classifyGapAndNote p).1

/-- Lines 82-87: `Inspection Gap (s)` — the whole gap when the *previous*
event of the same rep was an inspection, else 0. -/
def inspectionGapS (p : Event × Option Event) : Int :=
  match p.2 with
  | none => 0
  | some prev => if isInspection prev then p.1.ts - prev.ts else 0

/-- The `gap_notes` entries for one `(rep, date)` key, in row order — the
model of the module-level `defaultdict(list)` of line 12 after the
row-wise apply of line 100 has run over the whole table. -/
def gapNotesFor (anns : List (Event × Option Event)) (key : String × Int) : List String :=
  anns.foldl (fun acc p =>
    match (classifyGapAndNote p).2 with
    | some kn => if kn.1 = key then acc ++ [kn.2] else acc
    | none => acc) []

/-- Lines 22-25, `combine_notes`: newline-join the accumulated notes. -/
def combineNotes (anns : List (Event × Option Event)) (key : String × Int) : String :=
  String.intercalate "\n" (gapNotesFor anns key)

/-! ## Numeric helpers -/

/-- numpy/pandas `.round`: round half to even. -/
def roundHalfEven (x : ℚ) : ℤ :=
  let f := ⌊x⌋
  if x - f < 1/2 then f
  else if 1/2 < x - f then f + 1
  else if f % 2 = 0 then f else f + 1

/-- pandas `.round(2)`. -/
def round2 (x : ℚ) : ℚ := (roundHalfEven (x * 100) : ℚ) / 100

/-- The `"{H}h {M}m"` rendering used by lines 127-130, 147-149, 158 and
180-183 (hours and minutes truncated by floor division). -/
def fmtHM (td : Int) : String :=
  toString (td.fdiv 3600) ++ "h " ++ toString ((td.emod 3600).fdiv 60) ++ "m"

/-! ## Daily Aggregator and Metrics Deriver (lines 110-206) -/

/-- One output row of `process_data` (the fields the specification's claims
are about). -/
structure SummaryRow where
  rep : String
  date : Int
  start : Int
  finish : Int
  totalPins : Nat
  conversations : Nat
  inspections : Nat
  pinsLt30s : Nat
  pinsGt5mNonInsp : Nat
  inspScheduled : Nat
  inspNoDamage : Nat
  inspDamage : Nat
  claimsFiled : Nat
  timeInField : String
  convoPct : Option ℚ
  inspectionsPerConvo : Option ℚ
  inspectionTimeS : Int
  inspectionTime : String
  totalLongGapsS : Int
  adjTimeInField : String
  note : String
  deriving Repr, DecidableEq

/-- The `(rep, Date)` group key of a row (lines 89, 101, 110). -/
def keyOf (p : Event × Option Event) : String × Int := (p.1.rep, dateOf p.1)

/-- The distinct `(rep, Date)` keys, in order of first appearance (the
table is already sorted by rep and timestamp, so this is also the sorted
key order pandas `groupby` produces). -/
def groupKeys (anns : List (Event × Option Event)) : List (String × Int) :=
  anns.foldl (fun acc p => if keyOf p ∈ acc then acc else acc ++ [keyOf p]) []

/-- The annotated rows of one `(rep, Date)` group. -/
def groupOf (anns : List (Event × Option Event)) (key : String × Int) :
    List (Event × Option Event) :=
  anns.filter (fun p => decide (keyOf p = key))

/-- The timestamps of a group. -/
def tsListOf (g : List (Event × Option Event)) : List Int := g.map (fun p => p.1.ts)

/-- `Start` aggregate (line 111): group minimum timestamp. -/
def startOf (g : List (Event × Option Event)) : Int := (tsListOf g).min?.getD 0

/-- `Finish` aggregate (line 112): group maximum timestamp. -/
def finishOf (g : List (Event × Option Event)) : Int := (tsListOf g).max?.getD 0

/-- `Total Long Gaps (s)` aggregate (line 101): group sum of `Long Gaps (s)`. -/
def totalLongGapsOf (g : List (Event × Option Event)) : Int := (g.map longGapS).sum

/-- `Inspection Time (s)` aggregate (lines 88-93). -/
def inspectionTimeOf (g : List (Event × Option Event)) : Int := (g.map inspectionGapS).sum

/-- Lines 110-183: aggregate one `(rep, Date)` group and derive its
metrics.  Rate metrics are `Option ℚ`: `none` models the NaN a zero/zero
or inf-replaced division produces (undefined, rendered blank). -/
def mkRow (anns : List (Event × Option Event)) (key : String × Int) : SummaryRow :=
  let g := groupOf anns key
  let start := startOf g
  let finish := finishOf g
  let totalPins := g.length
  let conversations := g.countP (fun p => isConversation p.1)
  let inspections := g.countP (fun p => isInspection p.1)
  let inspectionTimeS := inspectionTimeOf g
  let totalLongGapsS := totalLongGapsOf g
  let adjS := (finish - start) - totalLongGapsS
  { rep := key.1
    date := key.2
    start := start
    finish := finish
    totalPins := totalPins
    conversations := conversations
    inspections := inspections
    pinsLt30s := g.countP (fun p =>
      match gapS p with
      | some gp => decide (gp < 30)
      | none => false)
    pinsGt5mNonInsp := g.countP (fun p =>
      match gapS p with
      | some gp => decide (300 < gp) && !(isInspection p.1)
      | none => false)
    inspScheduled := g.countP (fun p => decide (statusLower p.1 = "inspection scheduled"))
    inspNoDamage := g.countP (fun p => decide (p.1.status = "Inspected - No Damage"))
    inspDamage := g.countP (fun p => decide (p.1.status = "Inspected - Damage"))
    claimsFiled := g.countP (fun p => decide (p.1.status = "Claim Filed"))
    timeInField := fmtHM (finish - start)
    convoPct :=
      if totalPins = 0 then none
      else some (round2 ((conversations : ℚ) / (totalPins : ℚ)))
    inspectionsPerConvo :=
      if conversations = 0 then none
      else some (round2 ((inspections : ℚ) / (conversations : ℚ)))
    inspectionTimeS := inspectionTimeS
    inspectionTime := if 0 < inspectionTimeS then fmtHM inspectionTimeS else "0h 0m"
    totalLongGapsS := totalLongGapsS
    adjTimeInField := if 0 < adjS then fmtHM adjS else "0h 0m"
    note := combineNotes anns key }

/-- The whole per-run pipeline of `process_data` (lines 52-206) up to and
including the metrics that need no external service.  The note
accumulator (`gap_notes`, line 12) lives and dies inside this function:
Streamlit re-executes the whole script per run, so the dictionary is
freshly empty whenever `process_data` starts. -/
def processData (t : List RawEvent) : List SummaryRow :=
  let anns := annotatePrev (normalizeTable t) []
  (groupKeys anns).map (mkRow anns)

/-! ## Daylight Annotator (lines 14-20, 152-165) -/

/-- Lines 14-20, `get_sunset_time`: calls the sunrise-sunset HTTP service
for the row's date and converts the answer to local time.  The function
body contains no exception handling, so a service failure propagates to
the caller.  `svc` models the external service, keyed by the date the
code formats into the request URL. -/
def getSunsetTime (svc : Int → Except String Int) (date : Int) : Except String Int :=
  svc date

/-- A summary row plus the daylight fields of lines 152-165. -/
structure FullRow where
  row : SummaryRow
  sunsetTime : Int
  beforeSunset : String
  beforeSunsetHours : ℚ
  deriving Repr, DecidableEq

/-- Lines 155-165: `Before Sunset` fields for one row. -/
def attachSunset (row : SummaryRow) (sunset : Int) : FullRow :=
  let diff := sunset - row.finish
  if 0 < diff then
    ⟨row, sunset, fmtHM diff, round2 ((diff : ℚ) / 3600)⟩
  else
    ⟨row, sunset, "0h 0m", 0⟩

/-- Line 152, `grouped["Date"].apply(lambda d: get_sunset_time(...))`:
annotate every row with its day's sunset, aborting on the first failing
date (`.apply` propagates the exception, so later rows are never
reached and no partial result survives). -/
def annotateSunset (svc : Int → Except String Int) :
    List SummaryRow → Except String (List FullRow)
  | [] => Except.ok []
  | row :: rest =>
    match getSunsetTime svc row.date with
    | Except.error e => Except.error e
    | Except.ok s =>
      match annotateSunset svc rest with
      | Except.error e => Except.error e
      | Except.ok rows => Except.ok (attachSunset row s :: rows)

/-- `process_data` including the sunset annotation of line 152: the
un-guarded `.apply` raises out of `process_data` on a failing date,
producing no output at all; `Except` models that propagation. -/
def processDataFull (svc : Int → Except String Int) (t : List RawEvent) :
    Except String (List FullRow) :=
  annotateSunset svc (processData t)

/-! ## Concrete inputs used by the claim checks -/

/-- One rep, one event at 20:00 on day 0, then two events early on day 1:
the overnight gap (10 hours, rule 2) is attributed to day 1, whose own
span is only 5 minutes. -/
def c1Table : List RawEvent :=
  [⟨"Alex Doe", some 72000, "Not Interested", "", "10 Main St"⟩,
   ⟨"Alex Doe", some 108000, "Not Interested", "", "12 Main St"⟩,
   ⟨"Alex Doe", some 108300, "Not Interested", "", "14 Main St"⟩]

/-- One rep, one day: three events with one rule-2 gap inside the day. -/
def c1SingleDayTable : List RawEvent :=
  [⟨"Alex Doe", some 100, "Not Interested", "", "10 Main St"⟩,
   ⟨"Alex Doe", some 10100, "Not Interested", "", "12 Main St"⟩,
   ⟨"Alex Doe", some 10400, "Not Interested", "", "14 Main St"⟩]

/-- The single summary row of `c1SingleDayTable`. -/
def c1Row : SummaryRow :=
  mkRow (annotatePrev (normalizeTable c1SingleDayTable) []) ("Alex Doe", 0)

/-- The specification's walk-through scenario: 09:00 "Not Interested",
09:10 "Interested - Follow Up", 10:50 "Inspected - No Damage", one rep,
one day. -/
def c3Table : List RawEvent :=
  [⟨"Alex Doe", some 32400, "Not Interested", "", "10 Main St"⟩,
   ⟨"Alex Doe", some 33000, "Interested - Follow Up", "", "12 Main St"⟩,
   ⟨"Alex Doe", some 39000, "Inspected - No Damage", "", "14 Main St"⟩]

/-- A rep-day with one event and zero conversations. -/
def c4Table : List RawEvent :=
  [⟨"Alex Doe", some 32400, "Not Interested", "", "10 Main St"⟩]

/-- The single summary row of `c4Table`. -/
def c4Row : SummaryRow :=
  mkRow (annotatePrev (normalizeTable c4Table) []) ("Alex Doe", 0)

/-- One rep with one event on each of three consecutive days. -/
def c6Table : List RawEvent :=
  [⟨"Alex Doe", some 32400, "Not Interested", "", "10 Main St"⟩,
   ⟨"Alex Doe", some 118800, "Not Interested", "", "11 Main St"⟩,
   ⟨"Alex Doe", some 205200, "Not Interested", "", "12 Main St"⟩]

/-- A sunset service that fails for day 1 only. -/
def c6FailSvc : Int → Except String Int :=
  fun d => if d = 1 then Except.error "service unavailable" else Except.ok (d * 86400 + 75000)

/-- A sunset service that is down entirely. -/
def c6DownSvc : Int → Except String Int := fun _ => Except.error "network down"

/-- An inspection at 20:00 on day 0, then a single event on day 1, ten
hours later: day 1's lone event receives the whole overnight gap as both
excluded-idle (rule 2) and inspection-internal time. -/
def c7Table : List RawEvent :=
  [⟨"Alex Doe", some 72000, "Inspected - Damage", "", "10 Main St"⟩,
   ⟨"Alex Doe", some 108000, "Not Interested", "", "12 Main St"⟩]

/-- A table consisting of a single event. -/
def c7SingleTable : List RawEvent :=
  [⟨"Alex Doe", some 32400, "Inspected - Damage", "", "9 Oak St"⟩]

/-- The single summary row of `c7SingleTable`. -/
def c7Row : SummaryRow :=
  mkRow (annotatePrev (normalizeTable c7SingleTable) []) ("Alex Doe", 0)

/-- The lone event of `c7SingleTable`, as it appears after normalization. -/
def c7Event : Event :=
  ⟨"Alex Doe", 32400, "Inspected - Damage", "", "9 Oak St"⟩

/-- An annotated row with a 40-minute gap on a non-inspection event. -/
def c8Pair : Event × Option Event :=
  (⟨"Alex Doe", 35000, "Not Interested", "", "12 Main St"⟩,
   some ⟨"Alex Doe", 32600, "Not Interested", "", "10 Main St"⟩)

/-- The note the pipeline emits for `c8Pair` (40 minutes, no hour part). -/
def c8Note : String :=
  "Removed 40m gap between \x2710 Main St\x27 and \x2712 Main St\x27 (Rule 1: >30 min, not inspection)"

/-- An inspection followed, 8000 s later (more than 120 min), by a
non-inspection event on the same day. -/
def c10Table : List RawEvent :=
  [⟨"Alex Doe", some 0, "Inspected - Damage", "", "10 Main St"⟩,
   ⟨"Alex Doe", some 8000, "Not Interested", "", "12 Main St"⟩]

section
set_option allowUnsafeReducibility true
attribute [local semireducible] Rat.mul Rat.inv Rat.add Rat.sub

/-! ## Structural lemmas about the pipeline -/

theorem chListLt_irrefl (l : List Char) : chListLt l l = false := by
  induction l with
  | nil => rfl
  | cons a as ih =>
    simp only [chListLt, lt_irrefl a, if_false, ih]

theorem chListLt_asymm (l m : List Char) (h : chListLt l m = true) :
    chListLt m l = false := by
  induction l generalizing m with
  | nil =>
    cases m with
    | nil => exact absurd h (by simp [chListLt])
    | cons b bs => rfl
  | cons a as ih =>
    cases m with
    | nil => exact absurd h (by simp [chListLt])
    | cons b bs =>
      simp only [chListLt] at h ⊢
      by_cases hab : a < b
      · rw [if_neg (lt_asymm hab), if_pos hab]
      · rw [if_neg hab] at h
        by_cases hba : b < a
        · rw [if_pos hba] at h; exact absurd h (by simp)
        · rw [if_neg hba] at h
          rw [if_neg hba, if_neg hab]
          exact ih bs h

theorem chListLt_eq_of_not (l m : List Char) (h1 : chListLt l m = false)
    (h2 : chListLt m l = false) : l = m := by
  induction l generalizing m with
  | nil =>
    cases m with
    | nil => rfl
    | cons b bs => exact absurd h1 (by simp [chListLt])
  | cons a as ih =>
    cases m with
    | nil => exact absurd h2 (by simp [chListLt])
    | cons b bs =>
      simp only [chListLt] at h1 h2
      by_cases hab : a < b
      · rw [if_pos hab] at h1; exact absurd h1 (by simp)
      · by_cases hba : b < a
        · rw [if_pos hba] at h2; exact absurd h2 (by simp)
        · rw [if_neg hab, if_neg hba] at h1
          rw [if_neg hba, if_neg hab] at h2
          have hc : a = b := le_antisymm (le_of_not_lt hba) (le_of_not_lt hab)
          rw [hc, ih bs h1 h2]

theorem chListLt_trans (l m n : List Char) (h1 : chListLt l m = true)
    (h2 : chListLt m n = true) : chListLt l n = true := by
  induction l generalizing m n with
  | nil =>
    cases n with
    | nil =>
      cases m with
      | nil => exact h1
      | cons b bs => exact absurd h2 (by simp [chListLt])
    | cons c cs => rfl
  | cons a as ih =>
    cases m with
    | nil => exact absurd h1 (by simp [chListLt])
    | cons b bs =>
      cases n with
      | nil => exact absurd h2 (by simp [chListLt])
      | cons c cs =>
        simp only [chListLt] at h1 h2 ⊢
        by_cases hab : a < b
        · by_cases hbc : b < c
          · rw [if_pos (lt_trans hab hbc)]
          · by_cases hcb : c < b
            · rw [if_neg hbc, if_pos hcb] at h2; exact absurd h2 (by simp)
            · have hbceq : b = c := le_antisymm (le_of_not_lt hcb) (le_of_not_lt hbc)
              rw [if_pos (hbceq ▸ hab)]
        · rw [if_neg hab] at h1
          by_cases hba : b < a
          · rw [if_pos hba] at h1; exact absurd h1 (by simp)
          · rw [if_neg hba] at h1
            have habeq : a = b := le_antisymm (le_of_not_lt hba) (le_of_not_lt hab)
            by_cases hbc : b < c
            · rw [if_pos (habeq ▸ hbc)]
            · rw [if_neg hbc] at h2
              by_cases hcb : c < b
              · rw [if_pos hcb] at h2; exact absurd h2 (by simp)
              · rw [if_neg hcb] at h2
                rw [if_neg (habeq ▸ hbc), if_neg (habeq ▸ hcb)]
                exact ih bs cs h1 h2

theorem strLt_total_eq (a b : String) (h1 : ¬ strLt a b) (h2 : ¬ strLt b a) : a = b := by
  refine String.ext (chListLt_eq_of_not _ _ ?_ ?_)
  · exact Bool.not_eq_true _ ▸ (by simpa [strLt] using h1)
  · exact Bool.not_eq_true _ ▸ (by simpa [strLt] using h2)

instance : IsTotal Event eventLe := by
  constructor
  intro a b
  by_cases hab : strLt a.rep b.rep
  · exact Or.inl (Or.inl hab)
  · by_cases hba : strLt b.rep a.rep
    · exact Or.inr (Or.inl hba)
    · have heq : a.rep = b.rep := strLt_total_eq _ _ hab hba
      rcases le_total a.ts b.ts with h2 | h2
      · exact Or.inl (Or.inr ⟨heq, h2⟩)
      · exact Or.inr (Or.inr ⟨heq.symm, h2⟩)

instance : IsTrans Event eventLe := by
  constructor
  intro a b c hab hbc
  rcases hab with h1 | ⟨h1, h1t⟩
  · rcases hbc with h2 | ⟨h2, _⟩
    · exact Or.inl (chListLt_trans _ _ _ h1 h2)
    · exact Or.inl (by rw [strLt, ← h2]; exact h1)
  · rcases hbc with h2 | ⟨h2, h2t⟩
    · exact Or.inl (by rw [strLt, h1]; exact h2)
    · exact Or.inr ⟨h1.trans h2, h1t.trans h2t⟩


theorem annotatePrev_map_fst (l : List Event) (m : List (String × Event)) :
    (annotatePrev l m).map Prod.fst = l := by
  induction l generalizing m with
  | nil => rfl
  | cons e rest ih => simp [annotatePrev, ih]

theorem annotatePrev_filter_rep (r : String) (l : List Event) :
    ∀ (m₁ m₂ : List (String × Event)), List.lookup r m₁ = List.lookup r m₂ →
      (annotatePrev l m₁).filter (fun p => decide (p.1.rep = r))
        = annotatePrev (l.filter (fun e => decide (e.rep = r))) m₂ := by
  induction l with
  | nil => intro m₁ m₂ _; rfl
  | cons e rest ih =>
    intro m₁ m₂ hm
    by_cases he : e.rep = r
    · simp only [annotatePrev, List.filter_cons]
      rw [if_pos (by simp [he]), if_pos (by simp [he])]
      simp only [annotatePrev]
      refine congrArg₂ _ ?_ ?_
      · rw [he, hm]
      · apply ih
        simp [List.lookup, he]
    · simp only [annotatePrev, List.filter_cons]
      rw [if_neg (by simp [he]), if_neg (by simp [he])]
      apply ih
      rw [← hm]
      simp [List.lookup, beq_eq_false_iff_ne.mpr (Ne.symm he)]

theorem mem_groupKeys (anns : List (Event × Option Event)) (k : String × Int) :
    k ∈ groupKeys anns ↔ ∃ p ∈ anns, keyOf p = k := by
  have main : ∀ (l : List (Event × Option Event)) (acc : List (String × Int)),
      k ∈ l.foldl (fun acc p => if keyOf p ∈ acc then acc else acc ++ [keyOf p]) acc
        ↔ k ∈ acc ∨ ∃ p ∈ l, keyOf p = k := by
    intro l
    induction l with
    | nil => intro acc; simp
    | cons p rest ih =>
      intro acc
      simp only [List.foldl_cons]
      rw [ih]
      by_cases hp : keyOf p ∈ acc
      · rw [if_pos hp]
        constructor
        · rintro (h | ⟨q, hq, hqk⟩)
          · exact Or.inl h
          · exact Or.inr ⟨q, List.mem_cons_of_mem p hq, hqk⟩
        · rintro (h | ⟨q, hq, hqk⟩)
          · exact Or.inl h
          · rcases List.mem_cons.mp hq with rfl | hq2
            · exact Or.inl (hqk ▸ hp)
            · exact Or.inr ⟨q, hq2, hqk⟩
      · rw [if_neg hp]
        constructor
        · rintro (h | ⟨q, hq, hqk⟩)
          · rcases List.mem_append.mp h with h2 | h2
            · exact Or.inl h2
            · exact Or.inr ⟨p, List.mem_cons_self p rest, (List.mem_singleton.mp h2).symm⟩
          · exact Or.inr ⟨q, List.mem_cons_of_mem p hq, hqk⟩
        · rintro (h | ⟨q, hq, hqk⟩)
          · exact Or.inl (List.mem_append.mpr (Or.inl h))
          · rcases List.mem_cons.mp hq with rfl | hq2
            · exact Or.inl (List.mem_append.mpr (Or.inr (by simp [hqk])))
            · exact Or.inr ⟨q, hq2, hqk⟩
  rw [groupKeys, main]
  simp

theorem mem_processData (t : List RawEvent) (row : SummaryRow) :
    row ∈ processData t
      ↔ ∃ key ∈ groupKeys (annotatePrev (normalizeTable t) []),
          row = mkRow (annotatePrev (normalizeTable t) []) key := by
  simp only [processData, List.mem_map]
  constructor
  · rintro ⟨key, hk, heq⟩; exact ⟨key, hk, heq.symm⟩
  · rintro ⟨key, hk, heq⟩; exact ⟨key, hk, heq.symm⟩

theorem longGapS_nonneg (p : Event × Option Event) : 0 ≤ longGapS p := by
  rcases p with ⟨e, _ | prev⟩
  · simp [longGapS, classifyGapAndNote]
  · simp only [longGapS, classifyGapAndNote]
    split
    · next h => simp; omega
    · split
      · next h => simp; omega
      · simp

theorem longGapS_le (e prev : Event) (h : prev.ts ≤ e.ts) :
    longGapS (e, some prev) ≤ e.ts - prev.ts := by
  simp only [longGapS, classifyGapAndNote]
  split
  · simp
  · split
    · simp
    · simp; omega

theorem sum_longGapS_nonneg (l : List (Event × Option Event)) :
    0 ≤ (l.map longGapS).sum := by
  induction l with
  | nil => simp
  | cons p rest ih =>
    simp only [List.map_cons, List.sum_cons]
    have := longGapS_nonneg p
    omega

theorem foldl_min_eq (x : Int) (xs : List Int) (h : ∀ y ∈ xs, x ≤ y) :
    xs.foldl min x = x := by
  induction xs generalizing x with
  | nil => rfl
  | cons y ys ih =>
    simp only [List.foldl_cons]
    rw [min_eq_left (h y (by simp))]
    exact ih x (fun z hz => h z (by simp [hz]))

theorem foldl_max_eq_getLastD (x : Int) (xs : List Int)
    (h : List.Pairwise (fun a b : Int => a ≤ b) (x :: xs)) :
    xs.foldl max x = xs.getLastD x := by
  induction xs generalizing x with
  | nil => rfl
  | cons y ys ih =>
    simp only [List.foldl_cons, List.getLastD_cons]
    rw [max_eq_right ((List.pairwise_cons.mp h).1 y (by simp))]
    exact ih y (List.pairwise_cons.mp h).2

theorem getLastD_map_ts (l : List Event) (d : Event) :
    (l.map (fun e => e.ts)).getLastD d.ts = (l.getLastD d).ts := by
  induction l generalizing d with
  | nil => rfl
  | cons e rest ih =>
    simp only [List.map_cons, List.getLastD_cons]
    exact ih e

theorem sorted_normalizeTable (t : List RawEvent) :
    List.Sorted eventLe (normalizeTable t) :=
  List.sorted_insertionSort eventLe (prepRows t)

theorem eventLe_ts_of_rep_eq (a b : Event) (h : eventLe a b) (hr : a.rep = b.rep) :
    a.ts ≤ b.ts := by
  rcases h with h | ⟨_, ht⟩
  · rw [strLt, hr] at h
    exact absurd h (by simp [chListLt_irrefl])
  · exact ht

theorem sorted_ts_filter_rep (l : List Event) (hs : List.Sorted eventLe l) (r : String) :
    List.Pairwise (fun a b : Event => a.ts ≤ b.ts)
      (l.filter (fun e => decide (e.rep = r))) := by
  have h1 : List.Pairwise eventLe (l.filter (fun e => decide (e.rep = r))) :=
    List.Pairwise.filter _ hs
  refine h1.imp_of_mem ?_
  intro a b ha hb hab
  have har : a.rep = r := by simpa using List.of_mem_filter ha
  have hbr : b.rep = r := by simpa using List.of_mem_filter hb
  exact eventLe_ts_of_rep_eq a b hab (har.trans hbr.symm)

theorem annotate_chain_sum_le (r : String) (l : List Event) :
    ∀ (p : Event) (m : List (String × Event)),
      (∀ x ∈ l, x.rep = r) → List.lookup r m = some p →
      List.Chain' (fun a b : Event => a.ts ≤ b.ts) (p :: l) →
      ((annotatePrev l m).map longGapS).sum ≤ (l.getLastD p).ts - p.ts := by
  induction l with
  | nil => intro p m _ _ _; simp [annotatePrev]
  | cons e rest ih =>
    intro p m hrep hlk hch
    have her : e.rep = r := hrep e (by simp)
    simp only [annotatePrev, List.map_cons, List.sum_cons]
    rw [her, hlk]
    have hpe : p.ts ≤ e.ts := (List.chain'_cons.mp hch).1
    have hhead : longGapS (e, some p) ≤ e.ts - p.ts := longGapS_le e p hpe
    have htail : ((annotatePrev rest ((r, e) :: m)).map longGapS).sum
        ≤ (rest.getLastD e).ts - e.ts := by
      apply ih e ((r, e) :: m) (fun x hx => hrep x (by simp [hx]))
      · simp [List.lookup]
      · exact (List.chain'_cons.mp hch).2
    rw [List.getLastD_cons]
    omega

theorem mkRow_start (anns : List (Event × Option Event)) (key : String × Int) :
    (mkRow anns key).start = startOf (groupOf anns key) := rfl

theorem mkRow_finish (anns : List (Event × Option Event)) (key : String × Int) :
    (mkRow anns key).finish = finishOf (groupOf anns key) := rfl

theorem mkRow_totalPins (anns : List (Event × Option Event)) (key : String × Int) :
    (mkRow anns key).totalPins = (groupOf anns key).length := rfl

theorem mkRow_conversations (anns : List (Event × Option Event)) (key : String × Int) :
    (mkRow anns key).conversations
      = (groupOf anns key).countP (fun p => isConversation p.1) := rfl

theorem mkRow_inspections (anns : List (Event × Option Event)) (key : String × Int) :
    (mkRow anns key).inspections
      = (groupOf anns key).countP (fun p => isInspection p.1) := rfl

theorem mkRow_pinsLt30s (anns : List (Event × Option Event)) (key : String × Int) :
    (mkRow anns key).pinsLt30s
      = (groupOf anns key).countP (fun p =>
          match gapS p with
          | some gp => decide (gp < 30)
          | none => false) := rfl

theorem mkRow_pinsGt5mNonInsp (anns : List (Event × Option Event)) (key : String × Int) :
    (mkRow anns key).pinsGt5mNonInsp
      = (groupOf anns key).countP (fun p =>
          match gapS p with
          | some gp => decide (300 < gp) && !(isInspection p.1)
          | none => false) := rfl

theorem mkRow_inspScheduled (anns : List (Event × Option Event)) (key : String × Int) :
    (mkRow anns key).inspScheduled
      = (groupOf anns key).countP (fun p =>
          decide (statusLower p.1 = "inspection scheduled")) := rfl

theorem mkRow_inspNoDamage (anns : List (Event × Option Event)) (key : String × Int) :
    (mkRow anns key).inspNoDamage
      = (groupOf anns key).countP (fun p =>
          decide (p.1.status = "Inspected - No Damage")) := rfl

theorem mkRow_inspDamage (anns : List (Event × Option Event)) (key : String × Int) :
    (mkRow anns key).inspDamage
      = (groupOf anns key).countP (fun p =>
          decide (p.1.status = "Inspected - Damage")) := rfl

theorem mkRow_claimsFiled (anns : List (Event × Option Event)) (key : String × Int) :
    (mkRow anns key).claimsFiled
      = (groupOf anns key).countP (fun p =>
          decide (p.1.status = "Claim Filed")) := rfl

theorem mkRow_inspectionTimeS (anns : List (Event × Option Event)) (key : String × Int) :
    (mkRow anns key).inspectionTimeS = inspectionTimeOf (groupOf anns key) := rfl

theorem mkRow_totalLongGapsS (anns : List (Event × Option Event)) (key : String × Int) :
    (mkRow anns key).totalLongGapsS = totalLongGapsOf (groupOf anns key) := rfl

theorem groupOf_ne_nil (anns : List (Event × Option Event)) (key : String × Int)
    (h : key ∈ groupKeys anns) : groupOf anns key ≠ [] := by
  obtain ⟨p, hp, hk⟩ := (mem_groupKeys anns key).mp h
  intro hnil
  have hmem : p ∈ groupOf anns key := List.mem_filter.mpr ⟨hp, by simp [hk]⟩
  rw [hnil] at hmem
  exact absurd hmem (List.not_mem_nil p)

theorem sunsetBatch_error (svc : Int → Except String Int) (l : List SummaryRow)
    (row : SummaryRow) (hrow : row ∈ l) (hfail : ∀ s, svc row.date ≠ Except.ok s) :
    ∃ msg, annotateSunset svc l = Except.error msg := by
  induction l with
  | nil => cases hrow
  | cons a l ih =>
    rcases List.mem_cons.mp hrow with rfl | hmem
    · cases hsvc : svc row.date with
      | error e => exact ⟨e, by simp [annotateSunset, getSunsetTime, hsvc]⟩
      | ok s => exact absurd hsvc (hfail s)
    · cases hsvc : svc a.date with
      | error e => exact ⟨e, by simp [annotateSunset, getSunsetTime, hsvc]⟩
      | ok s =>
        obtain ⟨msg, hmsg⟩ := ih hmem
        exact ⟨msg, by simp [annotateSunset, getSunsetTime, hsvc, hmsg]⟩

/-! ## Claim C2: gap classification boundaries -/

/-- C2: a gap of exactly 1800 s is classified normal (the rule-1 boundary
is strict `>`); a gap of 1801 s on a non-inspection event is excluded
under rule 1; a gap of 7201 s is excluded under rule 2 regardless of the
event's inspection status (rule 2 is checked first and takes priority
when both could match). -/
theorem c2_gap_classification_boundaries :
    (∀ e prev : Event, e.ts - prev.ts = 1800 →
      classifyGapAndNote (e, some prev) = (0, none))
    ∧ (∀ e prev : Event, e.ts - prev.ts = 1801 → isInspection e = false →
      classifyGapAndNote (e, some prev)
        = (1801, some ((e.rep, dateOf e),
            mkRemovalNote 1801 prev.address e.address "Rule 1: >30 min, not inspection")))
    ∧ (∀ e prev : Event, e.ts - prev.ts = 7201 →
      classifyGapAndNote (e, some prev)
        = (7201, some ((e.rep, dateOf e),
            mkRemovalNote 7201 prev.address e.address "Rule 2: >120 min"))) := by
  refine ⟨?_, ?_, ?_⟩
  · intro e prev h
    simp only [classifyGapAndNote, h]
    rw [if_neg (by omega), if_neg (by simp)]
  · intro e prev h h2
    simp only [classifyGapAndNote, h]
    rw [if_neg (by omega), if_pos ⟨by omega, h2⟩]
  · intro e prev h
    simp only [classifyGapAndNote, h]
    rw [if_pos (by omega)]

/-- Witness for `c2_gap_classification_boundaries` at concrete events. -/
theorem c2_gap_classification_boundaries_witness :
    classifyGapAndNote (⟨"Rep A", 1800, "Not Interested", "", "2 Elm"⟩,
        some ⟨"Rep A", 0, "Not Interested", "", "1 Elm"⟩) = (0, none)
    ∧ classifyGapAndNote (⟨"Rep A", 1801, "Not Interested", "", "2 Elm"⟩,
        some ⟨"Rep A", 0, "Not Interested", "", "1 Elm"⟩)
      = (1801, some (("Rep A", 0),
          mkRemovalNote 1801 "1 Elm" "2 Elm" "Rule 1: >30 min, not inspection"))
    ∧ classifyGapAndNote (⟨"Rep A", 7201, "Inspected - Damage", "", "2 Elm"⟩,
        some ⟨"Rep A", 0, "Not Interested", "", "1 Elm"⟩)
      = (7201, some (("Rep A", 0),
          mkRemovalNote 7201 "1 Elm" "2 Elm" "Rule 2: >120 min")) :=
  ⟨c2_gap_classification_boundaries.1 _ _ (by decide),
   c2_gap_classification_boundaries.2.1 _ _ (by decide) (by decide),
   c2_gap_classification_boundaries.2.2 _ _ (by decide)⟩

/-! ## Claim C3: the walk-through scenario -/

/-- C3 counterexample: on the specification's three-event scenario the
6000 s gap ends at the 10:50 event, whose status "Inspected - No Damage"
is inspection-classified, so rule 1 does not fire: no row has Total Long
Gaps 6000, Adj Time in Field "0h 10m", or a non-empty note. -/
theorem c3_counterexample :
    ¬ (∀ row ∈ processData c3Table,
        row.totalLongGapsS = 6000 ∧ row.adjTimeInField = "0h 10m" ∧ row.note ≠ "") := by
  decide

/-- C3 (amended): on the scenario the gaps are 600 s and 6000 s, both
classified normal (the 6000 s gap ends at an inspection event, so rule 1
does not apply); Total Pins = 3, Conversations = 1, Inspections = 1,
Time in Field = "1h 50m", and — because no gap is excluded — Adj Time in
Field = "1h 50m" and no note is emitted. -/
theorem c3_amended_scenario :
    (annotatePrev (normalizeTable c3Table) []).map gapS = [none, some 600, some 6000]
    ∧ (annotatePrev (normalizeTable c3Table) []).map longGapS = [0, 0, 0]
    ∧ (processData c3Table).map (fun r =>
        (r.totalPins, r.conversations, r.inspections, r.timeInField, r.adjTimeInField, r.note))
      = [(3, 1, 1, "1h 50m", "1h 50m", "")] := by
  decide

/-! ## Claim C10: a gap counted as both inspection time and long gap -/

/-- C10: the inspection-internal and excluded-idle accumulations are not
mutually exclusive — in `c10Table` the single 8000 s gap follows an
inspection event and exceeds 7200 s, so its full duration lands in both
the rep-day's Inspection Time and its Total Long Gaps. -/
theorem c10_double_counted_gap :
    (annotatePrev (normalizeTable c10Table) []).map (fun p => (inspectionGapS p, longGapS p))
      = [(0, 0), (8000, 8000)]
    ∧ (processData c10Table).map (fun r => (r.inspectionTimeS, r.totalLongGapsS))
      = [(8000, 8000)]
    ∧ isInspection ⟨"Alex Doe", 0, "Inspected - Damage", "", "10 Main St"⟩ = true
    ∧ (7200 : Int) < 8000 := by
  decide

/-! ## Claim C8: note text format -/

/-- C8 counterexample: for a 2400 s excluded gap the emitted note renders
the duration as "40m" — Python's `f"{hrs}h {mins}m" if hrs else
f"{mins}m"` drops the hour part below one hour — not in the "0h 40m"
(`Hh Mm`) form the claim asserts for all excluded gaps. -/
theorem c8_counterexample :
    (classifyGapAndNote c8Pair).2 = some (("Alex Doe", 0), c8Note)
    ∧ c8Note
      ≠ "Removed 0h 40m gap between \x2710 Main St\x27 and \x2712 Main St\x27 (Rule 1: >30 min, not inspection)" := by
  decide

/-- C8 (amended): every emitted note has the exact shape `Removed {dur}
gap between '{prev address}' and '{current address}' ({rule label})`,
where `{dur}` is rendered `{H}h {M}m` when the excluded gap is at least
one hour and `{M}m` (no hour part) when it is under an hour. -/
theorem c8_amended (p : Event × Option Event) (key : String × Int) (note : String)
    (h : (classifyGapAndNote p).2 = some (key, note)) :
    ∃ prev reason, p.2 = some prev
      ∧ (reason = "Rule 2: >120 min" ∨ reason = "Rule 1: >30 min, not inspection")
      ∧ 1800 < p.1.ts - prev.ts
      ∧ (3600 ≤ p.1.ts - prev.ts →
          note = "Removed " ++ (toString ((p.1.ts - prev.ts).fdiv 3600) ++ "h "
              ++ toString (((p.1.ts - prev.ts).emod 3600).fdiv 60) ++ "m")
            ++ " gap between \x27" ++ prev.address ++ "\x27 and \x27" ++ p.1.address
            ++ "\x27 (" ++ reason ++ ")")
      ∧ (p.1.ts - prev.ts < 3600 →
          note = "Removed " ++ (toString (((p.1.ts - prev.ts).emod 3600).fdiv 60) ++ "m")
            ++ " gap between \x27" ++ prev.address ++ "\x27 and \x27" ++ p.1.address
            ++ "\x27 (" ++ reason ++ ")") := by
  rcases p with ⟨e, _ | prev⟩
  · exact absurd h (by simp [classifyGapAndNote])
  · dsimp only at h ⊢
    simp only [classifyGapAndNote] at h
    by_cases h2 : 7200 < e.ts - prev.ts
    · rw [if_pos h2] at h
      have h3 : ((e.rep, dateOf e),
          mkRemovalNote (e.ts - prev.ts) prev.address e.address "Rule 2: >120 min")
            = (key, note) := Option.some.inj h
      have hnote : note
          = mkRemovalNote (e.ts - prev.ts) prev.address e.address "Rule 2: >120 min" :=
        (congrArg Prod.snd h3).symm
      refine ⟨prev, "Rule 2: >120 min", rfl, Or.inl rfl, by omega, ?_, ?_⟩
      · intro h4
        have hne : (e.ts - prev.ts).fdiv 3600 ≠ 0 := by
          rw [Int.fdiv_eq_ediv _ (by norm_num)]; omega
        rw [hnote]
        simp only [mkRemovalNote, fmtGapDuration]
        rw [if_pos hne]
      · intro h4
        exact absurd h4 (by omega)
    · rw [if_neg h2] at h
      by_cases h3 : 1800 < e.ts - prev.ts ∧ isInspection e = false
      · rw [if_pos h3] at h
        have h4 : ((e.rep, dateOf e),
            mkRemovalNote (e.ts - prev.ts) prev.address e.address
              "Rule 1: >30 min, not inspection")
              = (key, note) := Option.some.inj h
        have hnote : note
            = mkRemovalNote (e.ts - prev.ts) prev.address e.address
                "Rule 1: >30 min, not inspection" :=
          (congrArg Prod.snd h4).symm
        refine ⟨prev, "Rule 1: >30 min, not inspection", rfl, Or.inr rfl, h3.1, ?_, ?_⟩
        · intro h5
          have hne : (e.ts - prev.ts).fdiv 3600 ≠ 0 := by
            rw [Int.fdiv_eq_ediv _ (by norm_num)]; omega
          rw [hnote]
          simp only [mkRemovalNote, fmtGapDuration]
          rw [if_pos hne]
        · intro h5
          have hz : (e.ts - prev.ts).fdiv 3600 = 0 := by
            rw [Int.fdiv_eq_ediv _ (by norm_num)]
            have := h3.1
            omega
          rw [hnote]
          simp only [mkRemovalNote, fmtGapDuration]
          rw [if_neg (by rw [hz]; simp)]
      · rw [if_neg h3] at h
        exact absurd h (by simp)

/-! ## Claim C1 counterexample -/

/-- C1 counterexample: in `c1Table` the rep's overnight rule-2 gap
(36000 s) is attributed to day 1, whose own span is 300 s, so that row
violates `Total Long Gaps ≤ Finish − Start`. -/
theorem c1_counterexample :
    ¬ (∀ row ∈ processData c1Table,
        0 ≤ row.totalLongGapsS ∧ row.totalLongGapsS ≤ row.finish - row.start) := by
  decide

/-! ## Claim C7 counterexample -/

/-- C7 counterexample: in `c7Table` the day-1 group has exactly one event,
yet its row carries 36000 s of excluded-idle time and 36000 s of
inspection-internal time, both inherited from the overnight gap. -/
theorem c7_counterexample :
    ¬ (∀ row ∈ processData c7Table, row.totalPins = 1 →
        row.totalLongGapsS = 0 ∧ row.inspectionTimeS = 0) := by
  decide

/-! ## Claim C6 counterexample -/

/-- C6 counterexample: `c6Table` holds three distinct days and
`c6FailSvc` fails only for day 1, yet the whole run aborts with the
service error — no rows at all are produced, so the other two days are
not "unaffected" and no blank daylight field is emitted. -/
theorem c6_counterexample :
    processDataFull c6FailSvc c6Table = Except.error "service unavailable"
    ∧ (processData c6Table).map (fun r => r.date) = [0, 1, 2]
    ∧ (∀ s, c6FailSvc 1 ≠ Except.ok s)
    ∧ c6FailSvc 0 = Except.ok 75000 ∧ c6FailSvc 2 = Except.ok 247800 := by
  refine ⟨by rfl, by decide, ?_, by rfl, by rfl⟩
  intro s h
  simp [c6FailSvc] at h

/-- C6 (amended): a sunset-service failure is fatal to the whole run: if
the service fails for the date of any produced row, `process_data`
propagates the error and produces no output rows at all (no per-day
blank daylight fields, no rows for the unaffected days). -/
theorem c6_amended (svc : Int → Except String Int) (t : List RawEvent) (row : SummaryRow)
    (hrow : row ∈ processData t) (hfail : ∀ s, svc row.date ≠ Except.ok s) :
    ∃ msg, processDataFull svc t = Except.error msg :=
  sunsetBatch_error svc (processData t) row hrow hfail

/-- Witness for `c6_amended`: a fully-down service aborts the run on
`c6Table`. -/
theorem c6_amended_witness : ∃ msg, processDataFull c6DownSvc c6Table = Except.error msg := by
  have hne : processData c6Table ≠ [] := by decide
  obtain ⟨r, hr⟩ : ∃ r, r ∈ processData c6Table := by
    cases hl : processData c6Table with
    | nil => exact absurd hl hne
    | cons a l => exact ⟨a, by simp [hl]⟩
  exact c6_amended c6DownSvc c6Table r hr (fun s h => by simp [c6DownSvc] at h)

/-! ## Claim C4: Convo % on zero-conversation rows -/

/-- C4 counterexample: the rep-day of `c4Table` has one event and zero
conversations, and its Convo % is the defined value 0.00 — not an absent
value: the denominator, Total Pins, is 1, so the
undefined-on-zero-denominator convention never applies to Convo %. -/
theorem c4_counterexample :
    (processData c4Table).map (fun r => (r.conversations, r.totalPins, r.convoPct))
      = [(0, 1, some 0)]
    ∧ some (0 : ℚ) ≠ (none : Option ℚ) := by
  decide

/-- C4 (amended): every produced rep-day row aggregates at least one
event, so on a row with zero conversation-classified events Convo % is
defined and equals 0.00; the metric that is undefined there is
Inspections/Convo, whose denominator is the conversation count. -/
theorem c4_amended (t : List RawEvent) (row : SummaryRow)
    (hrow : row ∈ processData t) (hzero : row.conversations = 0) :
    1 ≤ row.totalPins ∧ row.convoPct = some 0 ∧ row.inspectionsPerConvo = none := by
  obtain ⟨key, hkey, hrweq⟩ := (mem_processData t row).mp hrow
  have hne : groupOf (annotatePrev (normalizeTable t) []) key ≠ [] :=
    groupOf_ne_nil _ key hkey
  set g := groupOf (annotatePrev (normalizeTable t) []) key with hg
  have hlen : 1 ≤ g.length := by
    cases hgl : g with
    | nil => exact absurd hgl hne
    | cons a l => simp
  have hpins : row.totalPins = g.length := by rw [hrweq]; rfl
  have hconv : row.conversations = g.countP (fun p => isConversation p.1) := by
    rw [hrweq]; rfl
  have hcp : row.convoPct
      = if g.length = 0 then none
        else some (round2 ((g.countP (fun p => isConversation p.1) : ℚ) / (g.length : ℚ))) := by
    rw [hrweq]; rfl
  have hipc : row.inspectionsPerConvo
      = if g.countP (fun p => isConversation p.1) = 0 then none
        else some (round2 ((g.countP (fun p => isInspection p.1) : ℚ)
          / (g.countP (fun p => isConversation p.1) : ℚ))) := by
    rw [hrweq]; rfl
  rw [hconv] at hzero
  refine ⟨by omega, ?_, ?_⟩
  · rw [hcp, if_neg (by omega), hzero]
    norm_num [round2, roundHalfEven]
  · rw [hipc, if_pos hzero]

/-- Witness for `c4_amended` at `c4Table`. -/
theorem c4_amended_witness :
    1 ≤ c4Row.totalPins ∧ c4Row.convoPct = some 0 ∧ c4Row.inspectionsPerConvo = none :=
  c4_amended c4Table c4Row (by decide) (by decide)

/-- Witness for `c8_amended` at `c8Pair` (a 40-minute rule-1 gap). -/
theorem c8_amended_witness :
    ∃ prev reason, c8Pair.2 = some prev
      ∧ (reason = "Rule 2: >120 min" ∨ reason = "Rule 1: >30 min, not inspection")
      ∧ 1800 < c8Pair.1.ts - prev.ts
      ∧ (3600 ≤ c8Pair.1.ts - prev.ts →
          c8Note = "Removed " ++ (toString ((c8Pair.1.ts - prev.ts).fdiv 3600) ++ "h "
              ++ toString (((c8Pair.1.ts - prev.ts).emod 3600).fdiv 60) ++ "m")
            ++ " gap between \x27" ++ prev.address ++ "\x27 and \x27" ++ c8Pair.1.address
            ++ "\x27 (" ++ reason ++ ")")
      ∧ (c8Pair.1.ts - prev.ts < 3600 →
          c8Note = "Removed " ++ (toString (((c8Pair.1.ts - prev.ts).emod 3600).fdiv 60) ++ "m")
            ++ " gap between \x27" ++ prev.address ++ "\x27 and \x27" ++ c8Pair.1.address
            ++ "\x27 (" ++ reason ++ ")") :=
  c8_amended c8Pair ("Alex Doe", 0) c8Note (by decide)

/-! ## Claim C1: Total Long Gaps against the day span -/

theorem tsListOf_annotatePrev (l : List Event) (m : List (String × Event)) :
    tsListOf (annotatePrev l m) = l.map (fun e => e.ts) := by
  have h1 : (fun p : Event × Option Event => p.1.ts)
      = (fun e : Event => e.ts) ∘ Prod.fst := rfl
  rw [tsListOf, h1, ← List.map_map, annotatePrev_map_fst]

/-- C1 (amended): for every produced summary row, the accumulated
excluded-idle seconds are non-negative, unconditionally; and whenever
all of the rep's normalized events fall on that row's day — in
particular whenever no overnight gap is attributed across a day
boundary — they also satisfy `Total Long Gaps ≤ Finish − Start`.  (The
upper bound fails in general: a rule-2 gap spanning midnight is
attributed to the later day, see the counterexample.) -/
theorem c1_amended (t : List RawEvent) (row : SummaryRow)
    (hrow : row ∈ processData t) :
    0 ≤ row.totalLongGapsS
    ∧ ((∀ e ∈ normalizeTable t, e.rep = row.rep → dateOf e = row.date) →
        row.totalLongGapsS ≤ row.finish - row.start) := by
  obtain ⟨key, hkey, hrweq⟩ := (mem_processData t row).mp hrow
  have hrep : row.rep = key.1 := by rw [hrweq]; rfl
  have hdate : row.date = key.2 := by rw [hrweq]; rfl
  have hstart : row.start = startOf (groupOf (annotatePrev (normalizeTable t) []) key) := by
    rw [hrweq]; rfl
  have hfinish : row.finish = finishOf (groupOf (annotatePrev (normalizeTable t) []) key) := by
    rw [hrweq]; rfl
  have hlong : row.totalLongGapsS
      = totalLongGapsOf (groupOf (annotatePrev (normalizeTable t) []) key) := by
    rw [hrweq]; rfl
  set anns := annotatePrev (normalizeTable t) [] with hanns
  have hfstmem : ∀ p ∈ anns, p.1 ∈ normalizeTable t := by
    intro p hp
    have h1 : p.1 ∈ anns.map Prod.fst := List.mem_map_of_mem Prod.fst hp
    rw [hanns, annotatePrev_map_fst] at h1
    exact h1
  refine ⟨by rw [hlong, totalLongGapsOf]; exact sum_longGapS_nonneg _, fun hday => ?_⟩
  have hfilter : groupOf anns key = anns.filter (fun p => decide (p.1.rep = key.1)) := by
    rw [groupOf]
    apply List.filter_congr
    intro p hp
    apply decide_eq_decide.mpr
    constructor
    · intro h
      exact congrArg Prod.fst h
    · intro h
      have hd : dateOf p.1 = key.2 := by
        have h2 := hday p.1 (hfstmem p hp) (by rw [h, ← hrep])
        rw [hdate] at h2
        exact h2
      show keyOf p = key
      rw [keyOf, h, hd]
  set L := (normalizeTable t).filter (fun e => decide (e.rep = key.1)) with hLdef
  have hgroup : groupOf anns key = annotatePrev L [] := by
    rw [hfilter, hanns, hLdef]
    exact annotatePrev_filter_rep key.1 (normalizeTable t) [] [] rfl
  obtain ⟨p₀, hp₀, hkey₀⟩ := (mem_groupKeys anns key).mp hkey
  have hp₀r : p₀.1.rep = key.1 := congrArg Prod.fst hkey₀
  have hp₀L : p₀.1 ∈ L := by
    rw [hLdef]
    exact List.mem_filter.mpr ⟨hfstmem p₀ hp₀, by simp [hp₀r]⟩
  have hrepL : ∀ x ∈ L, x.rep = key.1 := by
    intro x hx
    rw [hLdef] at hx
    simpa using List.of_mem_filter hx
  have hsorted : List.Pairwise (fun a b : Event => a.ts ≤ b.ts) L := by
    rw [hLdef]
    exact sorted_ts_filter_rep _ (sorted_normalizeTable t) _
  cases hLc : L with
  | nil => rw [hLc] at hp₀L; cases hp₀L
  | cons e₀ L' =>
    rw [hLc] at hsorted hrepL hgroup
    have he₀r : e₀.rep = key.1 := hrepL e₀ (List.mem_cons_self _ _)
    have hannL : annotatePrev (e₀ :: L') [] = (e₀, none) :: annotatePrev L' [(key.1, e₀)] := by
      simp only [annotatePrev, List.lookup]
      rw [he₀r]
    have htrans : IsTrans Event (fun a b : Event => a.ts ≤ b.ts) :=
      ⟨fun a b c h1 h2 => le_trans h1 h2⟩
    have hch : List.Chain' (fun a b : Event => a.ts ≤ b.ts) (e₀ :: L') :=
      List.chain'_iff_pairwise.mpr hsorted
    have hsum : ((annotatePrev L' [(key.1, e₀)]).map longGapS).sum
        ≤ (L'.getLastD e₀).ts - e₀.ts := by
      apply annotate_chain_sum_le key.1 L' e₀ [(key.1, e₀)]
        (fun x hx => hrepL x (List.mem_cons_of_mem _ hx))
      · simp [List.lookup]
      · exact hch
    have hts : tsListOf (groupOf anns key) = e₀.ts :: L'.map (fun e => e.ts) := by
      rw [hgroup, hannL]
      simp only [tsListOf, List.map_cons]
      have h2 := tsListOf_annotatePrev L' [(key.1, e₀)]
      rw [tsListOf] at h2
      rw [h2]
    have hstartv : startOf (groupOf anns key) = e₀.ts := by
      rw [startOf, hts]
      have hmin : (e₀.ts :: L'.map (fun e => e.ts)).min?
          = some ((L'.map (fun e => e.ts)).foldl min e₀.ts) := rfl
      rw [hmin, Option.getD_some]
      apply foldl_min_eq
      intro y hy
      obtain ⟨x, hx, hxy⟩ := List.mem_map.mp hy
      rw [← hxy]
      exact (List.pairwise_cons.mp hsorted).1 x hx
    have hfinv : finishOf (groupOf anns key) = (L'.getLastD e₀).ts := by
      rw [finishOf, hts]
      have hmax : (e₀.ts :: L'.map (fun e => e.ts)).max?
          = some ((L'.map (fun e => e.ts)).foldl max e₀.ts) := rfl
      rw [hmax, Option.getD_some]
      rw [foldl_max_eq_getLastD]
      · exact getLastD_map_ts L' e₀
      · rw [← List.map_cons]
        exact List.pairwise_map.mpr hsorted
    have hlongv : totalLongGapsOf (groupOf anns key)
        = ((annotatePrev L' [(key.1, e₀)]).map longGapS).sum := by
      rw [totalLongGapsOf, hgroup, hannL]
      simp only [List.map_cons, List.sum_cons]
      have h0 : longGapS (e₀, none) = 0 := rfl
      rw [h0, zero_add]
    rw [hlong, hstart, hfinish, hlongv, hstartv, hfinv]
    omega

/-- Witness for `c1_amended` on the single-day table `c1SingleDayTable`,
whose rule-2 gap of 10000 s stays within the day's 10300 s span; the
inner all-events-on-one-day condition is discharged there as well. -/
theorem c1_amended_witness :
    (0 ≤ c1Row.totalLongGapsS
      ∧ ((∀ e ∈ normalizeTable c1SingleDayTable,
            e.rep = c1Row.rep → dateOf e = c1Row.date) →
          c1Row.totalLongGapsS ≤ c1Row.finish - c1Row.start))
    ∧ c1Row.totalLongGapsS ≤ c1Row.finish - c1Row.start := by
  have h := c1_amended c1SingleDayTable c1Row (by decide)
  exact ⟨h, h.2 (by decide)⟩

/-! ## Claim C7: single-event groups -/

/-- C7 (amended): a `(rep, day)` group with exactly one event has
Start = Finish (the event\'s timestamp), Total Pins = 1, and every
status-based classification count (conversations, inspections,
inspection-scheduled, inspected-no-damage, inspected-damage,
claims-filed) determined by that single event, unconditionally; its
gap-derived quantities — Total Long Gaps, Inspection Time and the
`<30s` / `>5m non-inspection` flag counts — are zero *provided* the
event is the rep\'s first normalized event, since otherwise a gap
inherited from the rep\'s previous day (see the counterexample) can
make them non-zero. -/
theorem c7_amended (t : List RawEvent) (row : SummaryRow) (e : Event)
    (hrow : row ∈ processData t)
    (hgroup : (normalizeTable t).filter
        (fun x => decide (x.rep = row.rep ∧ dateOf x = row.date)) = [e]) :
    row.start = e.ts ∧ row.finish = e.ts
    ∧ row.totalPins = 1
    ∧ row.conversations = (if isConversation e then 1 else 0)
    ∧ row.inspections = (if isInspection e then 1 else 0)
    ∧ row.inspScheduled = (if statusLower e = "inspection scheduled" then 1 else 0)
    ∧ row.inspNoDamage = (if e.status = "Inspected - No Damage" then 1 else 0)
    ∧ row.inspDamage = (if e.status = "Inspected - Damage" then 1 else 0)
    ∧ row.claimsFiled = (if e.status = "Claim Filed" then 1 else 0)
    ∧ (((normalizeTable t).filter (fun x => decide (x.rep = row.rep))).head? = some e →
        row.totalLongGapsS = 0 ∧ row.inspectionTimeS = 0
        ∧ row.pinsLt30s = 0 ∧ row.pinsGt5mNonInsp = 0) := by
  obtain ⟨key, hkey, hrweq⟩ := (mem_processData t row).mp hrow
  have hrep : row.rep = key.1 := by rw [hrweq]; rfl
  have hdate : row.date = key.2 := by rw [hrweq]; rfl
  rw [hrep, hdate] at hgroup
  set anns := annotatePrev (normalizeTable t) [] with hanns
  set L := (normalizeTable t).filter (fun x => decide (x.rep = key.1)) with hLdef
  have he : e ∈ (normalizeTable t).filter
      (fun x => decide (x.rep = key.1 ∧ dateOf x = key.2)) := by
    rw [hgroup]
    exact List.mem_singleton.mpr rfl
  have heP : e.rep = key.1 ∧ dateOf e = key.2 := by
    have h2 := List.of_mem_filter he
    simpa using h2
  have hsplit : (normalizeTable t).filter
      (fun x => decide (x.rep = key.1 ∧ dateOf x = key.2))
      = L.filter (fun x => decide (dateOf x = key.2)) := by
    rw [hLdef, List.filter_filter]
    apply List.filter_congr
    intro x _
    simp [Bool.decide_and, Bool.and_comm]
  have hLday : L.filter (fun x => decide (dateOf x = key.2)) = [e] := by
    rw [← hsplit, hgroup]
  have hfilterK : groupOf anns key
      = (anns.filter (fun p => decide (p.1.rep = key.1))).filter
          (fun p => decide (dateOf p.1 = key.2)) := by
    rw [groupOf, List.filter_filter]
    apply List.filter_congr
    intro p _
    simp [keyOf, Prod.ext_iff, Bool.decide_and, Bool.and_comm]
  have hrepfilter : anns.filter (fun p => decide (p.1.rep = key.1))
      = annotatePrev L [] := by
    rw [hanns, hLdef]
    exact annotatePrev_filter_rep key.1 _ [] [] rfl
  have hcomp : (fun p : Event × Option Event => decide (dateOf p.1 = key.2))
      = ((fun x : Event => decide (dateOf x = key.2)) ∘ Prod.fst) := rfl
  have hmapfst : (groupOf anns key).map Prod.fst = [e] := by
    rw [hfilterK, hrepfilter, hcomp, ← List.filter_map, annotatePrev_map_fst]
    exact hLday
  obtain ⟨pr, hgv⟩ : ∃ pr, groupOf anns key = [(e, pr)] := by
    cases hgvc : groupOf anns key with
    | nil => rw [hgvc] at hmapfst; cases hmapfst
    | cons q rest =>
      rw [hgvc] at hmapfst
      simp only [List.map_cons, List.cons.injEq] at hmapfst
      obtain ⟨hq1, hrest⟩ := hmapfst
      refine ⟨q.2, ?_⟩
      rw [List.map_eq_nil_iff.mp hrest, ← hq1]
  have hS : row.start = startOf (groupOf anns key) := by rw [hrweq]; rfl
  have hF : row.finish = finishOf (groupOf anns key) := by rw [hrweq]; rfl
  have hTP : row.totalPins = (groupOf anns key).length := by rw [hrweq]; rfl
  have hCv : row.conversations
      = (groupOf anns key).countP (fun p => isConversation p.1) := by rw [hrweq]; rfl
  have hIn : row.inspections
      = (groupOf anns key).countP (fun p => isInspection p.1) := by rw [hrweq]; rfl
  have hIS : row.inspScheduled
      = (groupOf anns key).countP (fun p =>
          decide (statusLower p.1 = "inspection scheduled")) := by rw [hrweq]; rfl
  have hND : row.inspNoDamage
      = (groupOf anns key).countP (fun p =>
          decide (p.1.status = "Inspected - No Damage")) := by rw [hrweq]; rfl
  have hDa : row.inspDamage
      = (groupOf anns key).countP (fun p =>
          decide (p.1.status = "Inspected - Damage")) := by rw [hrweq]; rfl
  have hCF : row.claimsFiled
      = (groupOf anns key).countP (fun p =>
          decide (p.1.status = "Claim Filed")) := by rw [hrweq]; rfl
  refine ⟨?_, ?_, ?_, ?_, ?_, ?_, ?_, ?_, ?_, ?_⟩
  · rw [hS, hgv]; rfl
  · rw [hF, hgv]; rfl
  · rw [hTP, hgv]; rfl
  · rw [hCv, hgv]
    simp [List.countP_cons]
  · rw [hIn, hgv]
    simp [List.countP_cons]
  · rw [hIS, hgv]
    simp [List.countP_cons]
  · rw [hND, hgv]
    simp [List.countP_cons]
  · rw [hDa, hgv]
    simp [List.countP_cons]
  · rw [hCF, hgv]
    simp [List.countP_cons]
  · intro hfirst
    rw [hrep] at hfirst
    rw [← hLdef] at hfirst
    obtain ⟨L2, hL⟩ : ∃ L2, L = e :: L2 := by
      cases hLc : L with
      | nil => rw [hLc] at hfirst; cases hfirst
      | cons a l =>
        rw [hLc] at hfirst
        simp only [List.head?_cons, Option.some.injEq] at hfirst
        exact ⟨l, by rw [hfirst]⟩
    have hL2 : L2.filter (fun x => decide (dateOf x = key.2)) = [] := by
      rw [hL, List.filter_cons, if_pos (by simp [heP.2])] at hLday
      exact (List.cons.injEq _ _ _ _).mp hLday |>.2
    have hannL : annotatePrev (e :: L2) [] = (e, none) :: annotatePrev L2 [(key.1, e)] := by
      simp only [annotatePrev, List.lookup]
      rw [heP.1]
    have htailnil : (annotatePrev L2 [(key.1, e)]).filter
        (fun p => decide (dateOf p.1 = key.2)) = [] := by
      have hmf : ((annotatePrev L2 [(key.1, e)]).filter
            (fun p => decide (dateOf p.1 = key.2))).map Prod.fst
          = L2.filter (fun x => decide (dateOf x = key.2)) := by
        rw [hcomp, ← List.filter_map, annotatePrev_map_fst]
      rw [hL2] at hmf
      exact List.map_eq_nil_iff.mp hmf
    have hgroupv : groupOf anns key = [(e, none)] := by
      rw [hfilterK, hrepfilter, hL, hannL, List.filter_cons,
        if_pos (by simp [heP.2]), htailnil]
    have hTL : row.totalLongGapsS = totalLongGapsOf (groupOf anns key) := by
      rw [hrweq]; rfl
    have hIT : row.inspectionTimeS = inspectionTimeOf (groupOf anns key) := by
      rw [hrweq]; rfl
    have h30 : row.pinsLt30s
        = (groupOf anns key).countP (fun p =>
            match gapS p with
            | some gp => decide (gp < 30)
            | none => false) := by rw [hrweq]; rfl
    have h5m : row.pinsGt5mNonInsp
        = (groupOf anns key).countP (fun p =>
            match gapS p with
            | some gp => decide (300 < gp) && !(isInspection p.1)
            | none => false) := by rw [hrweq]; rfl
    refine ⟨?_, ?_, ?_, ?_⟩
    · rw [hTL, hgroupv]; rfl
    · rw [hIT, hgroupv]; rfl
    · rw [h30, hgroupv]
      simp [List.countP_cons, gapS]
    · rw [h5m, hgroupv]
      simp [List.countP_cons, gapS]

/-- Witness for `c7_amended` on the one-event table `c7SingleTable`; the
inner first-event condition is discharged there as well. -/
theorem c7_amended_witness :
    (c7Row.start = c7Event.ts ∧ c7Row.finish = c7Event.ts
      ∧ c7Row.totalPins = 1
      ∧ c7Row.conversations = (if isConversation c7Event then 1 else 0)
      ∧ c7Row.inspections = (if isInspection c7Event then 1 else 0)
      ∧ c7Row.inspScheduled = (if statusLower c7Event = "inspection scheduled" then 1 else 0)
      ∧ c7Row.inspNoDamage = (if c7Event.status = "Inspected - No Damage" then 1 else 0)
      ∧ c7Row.inspDamage = (if c7Event.status = "Inspected - Damage" then 1 else 0)
      ∧ c7Row.claimsFiled = (if c7Event.status = "Claim Filed" then 1 else 0)
      ∧ (((normalizeTable c7SingleTable).filter
            (fun x => decide (x.rep = c7Row.rep))).head? = some c7Event →
          c7Row.totalLongGapsS = 0 ∧ c7Row.inspectionTimeS = 0
          ∧ c7Row.pinsLt30s = 0 ∧ c7Row.pinsGt5mNonInsp = 0))
    ∧ (c7Row.totalLongGapsS = 0 ∧ c7Row.inspectionTimeS = 0
        ∧ c7Row.pinsLt30s = 0 ∧ c7Row.pinsGt5mNonInsp = 0) := by
  have h := c7_amended c7SingleTable c7Row c7Event (by decide) (by decide)
  exact ⟨h, h.2.2.2.2.2.2.2.2.2 (by decide)⟩

/-! ## Claim C9: the Normalizer's sort is stable on `(rep, timestamp)` -/

theorem key_eq_imp_eventLe (a b : Event) (hr : a.rep = b.rep) (ht : a.ts = b.ts) :
    eventLe a b :=
  Or.inr ⟨hr, le_of_eq ht⟩

theorem filter_key_orderedInsert (K : String × Int) (a : Event) (l : List Event) :
    (List.orderedInsert eventLe a l).filter (fun x => decide ((x.rep, x.ts) = K))
      = (a :: l).filter (fun x => decide ((x.rep, x.ts) = K)) := by
  induction l with
  | nil => rfl
  | cons b bs ih =>
    simp only [List.orderedInsert]
    by_cases hab : eventLe a b
    · rw [if_pos hab]
    · rw [if_neg hab]
      by_cases hPa : (a.rep, a.ts) = K
      · have hPb : ¬ ((b.rep, b.ts) = K) := by
          intro hb
          rw [← hPa] at hb
          have h1 : b.rep = a.rep := congrArg Prod.fst hb
          have h2 : b.ts = a.ts := congrArg Prod.snd hb
          exact hab (key_eq_imp_eventLe a b h1.symm h2.symm)
        have hfb : List.filter (fun x => decide ((x.rep, x.ts) = K))
            (b :: List.orderedInsert eventLe a bs)
            = List.filter (fun x => decide ((x.rep, x.ts) = K))
                (List.orderedInsert eventLe a bs) := by
          simp [List.filter_cons, hPb]
        rw [hfb, ih]
        simp [List.filter_cons, hPa, hPb]
      · simp only [List.filter_cons, ih]
        simp [hPa]

theorem filter_key_insertionSort (K : String × Int) (l : List Event) :
    (List.insertionSort eventLe l).filter (fun x => decide ((x.rep, x.ts) = K))
      = l.filter (fun x => decide ((x.rep, x.ts) = K)) := by
  induction l with
  | nil => rfl
  | cons a l ih =>
    simp only [List.insertionSort]
    rw [filter_key_orderedInsert K a (List.insertionSort eventLe l)]
    simp only [List.filter_cons, ih]

/-- C9: the Normalizer sorts by the key `(rep identifier, timestamp)`
ascending; its output is a permutation of the cleaned input rows, and for
every exact key value the sorted output preserves the input's relative
order (stable sort): filtering either side by one `(rep, ts)` key yields
the same list.  This pins down which event is "previous" for gap
computation. -/
theorem c9_normalizer_stable_sort (t : List RawEvent) :
    List.Sorted eventLe (normalizeTable t)
    ∧ (normalizeTable t).Perm (prepRows t)
    ∧ ∀ (r : String) (ts : Int),
        (normalizeTable t).filter (fun e => decide ((e.rep, e.ts) = (r, ts)))
          = (prepRows t).filter (fun e => decide ((e.rep, e.ts) = (r, ts))) :=
  ⟨sorted_normalizeTable t, List.perm_insertionSort eventLe (prepRows t),
   fun r ts => filter_key_insertionSort (r, ts) (prepRows t)⟩

/-! ## Claim C5: reprocessing a normalized table is idempotent -/

theorem charEqIff (c d : Char) : c = d ↔ c.toNat = d.toNat :=
  ⟨fun h => by rw [h], fun h => Char.eq_of_val_eq (UInt32.ext h)⟩

theorem toLower_toNat (c : Char) :
    (Char.toLower c).toNat = if c.toNat ≥ 65 ∧ c.toNat ≤ 90 then c.toNat + 32 else c.toNat := by
  simp only [Char.toLower]
  split
  · next h =>
    have hv : (c.toNat + 32).isValidChar := by left; omega
    simp [Char.ofNat, hv]
    rfl
  · rfl

theorem wsIff (c : Char) :
    c.isWhitespace = true ↔ (c.toNat = 32 ∨ c.toNat = 9 ∨ c.toNat = 13 ∨ c.toNat = 10) := by
  have h1 : (' ').toNat = 32 := rfl
  have h2 : ('\t').toNat = 9 := rfl
  have h3 : ('\x0d').toNat = 13 := rfl
  have h4 : ('\n').toNat = 10 := rfl
  simp only [Char.isWhitespace, Bool.or_eq_true, decide_eq_true_eq, charEqIff, h1, h2, h3, h4]
  tauto

theorem isWhitespace_toLower (c : Char) : (Char.toLower c).isWhitespace = c.isWhitespace := by
  rw [Bool.eq_iff_iff, wsIff, wsIff, toLower_toNat]
  split <;> omega

theorem toLower_toLower (c : Char) : Char.toLower (Char.toLower c) = Char.toLower c := by
  rw [charEqIff, toLower_toNat, toLower_toNat c]
  by_cases h : c.toNat ≥ 65 ∧ c.toNat ≤ 90
  · rw [if_pos h, if_neg (by omega)]
  · rw [if_neg h, if_neg h]

theorem dropWhile_head_false (p : Char → Bool) (l : List Char) :
    ∀ a, (l.dropWhile p).head? = some a → p a = false := by
  induction l with
  | nil => intro a h; cases h
  | cons b bs ih =>
    intro a h
    rw [List.dropWhile_cons] at h
    by_cases hb : p b
    · rw [if_pos hb] at h
      exact ih a h
    · rw [if_neg hb] at h
      simp only [List.head?_cons, Option.some.injEq] at h
      rw [← h]
      exact Bool.not_eq_true _ ▸ hb

theorem dropWhile_eq_self_of_head (p : Char → Bool) (l : List Char)
    (h : ∀ a, l.head? = some a → p a = false) : l.dropWhile p = l := by
  cases l with
  | nil => rfl
  | cons b bs =>
    rw [List.dropWhile_cons, if_neg]
    simp [h b rfl]

theorem dropWhile_idem (p : Char → Bool) (l : List Char) :
    (l.dropWhile p).dropWhile p = l.dropWhile p :=
  dropWhile_eq_self_of_head p _ (dropWhile_head_false p l)

theorem trimLeft_trimLeft (l : List Char) : trimLeft (trimLeft l) = trimLeft l :=
  dropWhile_idem _ l

theorem trimRight_trimRight (l : List Char) : trimRight (trimRight l) = trimRight l := by
  simp only [trimRight, List.reverse_reverse]
  rw [dropWhile_idem]

theorem trimRight_prefixOf (l : List Char) : trimRight l <+: l := by
  rw [trimRight]
  have h := List.dropWhile_suffix (l := l.reverse) Char.isWhitespace
  have h2 := List.reverse_prefix.mpr h
  rwa [List.reverse_reverse] at h2

theorem head_false_of_prefixOf (p : Char → Bool) (l₁ l₂ : List Char) (hpre : l₁ <+: l₂)
    (h : ∀ a, l₂.head? = some a → p a = false) : ∀ a, l₁.head? = some a → p a = false := by
  intro a ha
  obtain ⟨u, hu⟩ := hpre
  apply h
  rw [← hu]
  cases l₁ with
  | nil => cases ha
  | cons x xs =>
    simp only [List.head?_cons, Option.some.injEq] at ha
    simp [ha]

theorem pyStrip_pyStrip (s : String) : pyStrip (pyStrip s) = pyStrip s := by
  have h3 : trimLeft (trimRight (trimLeft s.data)) = trimRight (trimLeft s.data) :=
    dropWhile_eq_self_of_head _ _
      (head_false_of_prefixOf _ _ _ (trimRight_prefixOf (trimLeft s.data))
        (dropWhile_head_false Char.isWhitespace s.data))
  show String.mk (trimRight (trimLeft (trimRight (trimLeft s.data))))
      = String.mk (trimRight (trimLeft s.data))
  rw [h3, trimRight_trimRight]

theorem wsComp : (Char.isWhitespace ∘ Char.toLower) = Char.isWhitespace :=
  funext isWhitespace_toLower

theorem trimLeft_map_toLower (l : List Char) :
    trimLeft (l.map Char.toLower) = (trimLeft l).map Char.toLower := by
  simp only [trimLeft, List.dropWhile_map, wsComp]

theorem trimRight_map_toLower (l : List Char) :
    trimRight (l.map Char.toLower) = (trimRight l).map Char.toLower := by
  simp only [trimRight, ← List.map_reverse, List.dropWhile_map, wsComp]

theorem pyStrip_pyLower (s : String) : pyStrip (pyLower s) = pyLower (pyStrip s) := by
  show String.mk (trimRight (trimLeft (s.data.map Char.toLower)))
      = String.mk ((trimRight (trimLeft s.data)).map Char.toLower)
  rw [trimLeft_map_toLower, trimRight_map_toLower]

theorem pyLower_pyLower (s : String) : pyLower (pyLower s) = pyLower s := by
  show String.mk ((s.data.map Char.toLower).map Char.toLower)
      = String.mk (s.data.map Char.toLower)
  rw [List.map_map]
  refine congrArg String.mk ?_
  exact List.map_congr_left (fun c _ => toLower_toLower c)

theorem cleanEvent_idem (e : Event) : cleanEvent (cleanEvent e) = cleanEvent e := by
  cases e with
  | mk rep ts status tags address =>
    simp [cleanEvent, pyStrip_pyStrip, pyStrip_pyLower, pyLower_pyLower]

theorem parseRows_eventToRaw (l : List Event) : parseRows (l.map eventToRaw) = l := by
  induction l with
  | nil => rfl
  | cons e rest ih =>
    cases e with
    | mk rep ts status tags address =>
      simp only [List.map_cons, parseRows, List.filterMap_cons] at ih ⊢
      simp [eventToRaw, ih]

theorem mem_normalizeTable_clean (t : List RawEvent) (x : Event)
    (hx : x ∈ normalizeTable t) : cleanEvent x = x := by
  have hperm := List.perm_insertionSort eventLe (prepRows t)
  have hx2 : x ∈ prepRows t := hperm.mem_iff.mp hx
  obtain ⟨y, _, hy⟩ := List.mem_map.mp hx2
  rw [← hy, cleanEvent_idem]

theorem normalizeTable_reprocess (t : List RawEvent) :
    normalizeTable ((normalizeTable t).map eventToRaw) = normalizeTable t := by
  have hmap : (normalizeTable t).map cleanEvent = normalizeTable t := by
    have h1 : (normalizeTable t).map cleanEvent = (normalizeTable t).map id :=
      List.map_congr_left (fun x hx => mem_normalizeTable_clean t x hx)
    rw [h1, List.map_id]
  show sortEvents (parseRows ((normalizeTable t).map eventToRaw) |>.map cleanEvent)
      = normalizeTable t
  rw [parseRows_eventToRaw, hmap]
  exact List.Sorted.insertionSort_eq (sorted_normalizeTable t)

/-- C5: the pipeline is idempotent and per-run scoped — feeding the
already-normalized, already-sorted event table back through
`process_data` yields exactly the same summary rows, the note accumulator
being an explicit per-run value that starts empty inside `processData`
on every run (never carried across runs). -/
theorem c5_reprocessing_idempotent (t : List RawEvent) :
    processData ((normalizeTable t).map eventToRaw) = processData t := by
  simp only [processData, normalizeTable_reprocess]

end

end LeadScout
